import Mathlib

/-!
Verification development for the rsnova mux crypto layer
(`src/mux/crypto.rs`) and the client handshake decision logic
(`src/channel/rmux.rs`).

Byte buffers (`bytes::BytesMut`, `&[u8]`) are embedded as `List Nat`
(each element one byte); `BytesMut::advance` is `List.drop`.  Machine
integers are `Nat` with explicit `% 2^w` wherever a width-w register
truncates.  Fallible decrypters return `Except`.  The external `skip32`
and `orion::hazardous::aead::chacha20poly1305` library functions that
`crypto.rs` calls are embedded executably from their published
algorithms (SKIP32 by G. Rose; RFC 8439 ChaCha20-Poly1305 IETF AEAD).
-/

/-- Little-endian serialization: `leBytes k n` is the `k`-byte
little-endian encoding of `n mod 2^(8*k)` (byte `i` is
`n / 256^i % 256`), matching `u64::to_le_bytes`, `u128::to_le_bytes`
and `BytesMut::put_u32_le` on in-range values. -/
def leBytes : Nat → Nat → List Nat
  | 0, _ => []
  | k + 1, n => n % 256 :: leBytes k (n / 256)

/-- `u32::from_le_bytes` on the first four bytes of a buffer
(missing bytes read as 0; real buffers always have the four bytes). -/
def read_u32_le (l : List Nat) : Nat :=
  l.getD 0 0 + 256 * l.getD 1 0 + 65536 * l.getD 2 0 + 16777216 * l.getD 3 0

theorem length_leBytes (k n : Nat) : (leBytes k n).length = k := by
  induction k generalizing n with
  | zero => rfl
  | succ k ih => simp [leBytes, ih]

theorem leBytes_four (n : Nat) :
    leBytes 4 n = [n % 256, n / 256 % 256, n / 65536 % 256, n / 16777216 % 256] := by
  simp [leBytes, Nat.div_div_eq_div_mul]

theorem read_u32_le_leBytes (n : Nat) (rest : List Nat) :
    read_u32_le (leBytes 4 n ++ rest) = n % 4294967296 := by
  rw [leBytes_four]
  simp only [List.cons_append, List.nil_append, read_u32_le, List.getD_cons_zero,
    List.getD_cons_succ]
  omega

/-- The SKIPJACK F-table used by the SKIP32 block cipher
(external `skip32` crate called from `crypto.rs`). -/
def ftable : List Nat :=
  [0xa3, 0xd7, 0x09, 0x83, 0xf8, 0x48, 0xf6, 0xf4, 0xb3, 0x21, 0x15, 0x78, 0x99, 0xb1, 0xaf, 0xf9,
   0xe7, 0x2d, 0x4d, 0x8a, 0xce, 0x4c, 0xca, 0x2e, 0x52, 0x95, 0xd9, 0x1e, 0x4e, 0x38, 0x44, 0x28,
   0x0a, 0xdf, 0x02, 0xa0, 0x17, 0xf1, 0x60, 0x68, 0x12, 0xb7, 0x7a, 0xc3, 0xe9, 0xfa, 0x3d, 0x53,
   0x96, 0x84, 0x6b, 0xba, 0xf2, 0x63, 0x9a, 0x19, 0x7c, 0xae, 0xe5, 0xf5, 0xf7, 0x16, 0x6a, 0xa2,
   0x39, 0xb6, 0x7b, 0x0f, 0xc1, 0x93, 0x81, 0x1b, 0xee, 0xb4, 0x1a, 0xea, 0xd0, 0x91, 0x2f, 0xb8,
   0x55, 0xb9, 0xda, 0x85, 0x3f, 0x41, 0xbf, 0xe0, 0x5a, 0x58, 0x80, 0x5f, 0x66, 0x0b, 0xd8, 0x90,
   0x35, 0xd5, 0xc0, 0xa7, 0x33, 0x06, 0x65, 0x69, 0x45, 0x00, 0x94, 0x56, 0x6d, 0x98, 0x9b, 0x76,
   0x97, 0xfc, 0xb2, 0xc2, 0xb0, 0xfe, 0xdb, 0x20, 0xe1, 0xeb, 0xd6, 0xe4, 0xdd, 0x47, 0x4a, 0x1d,
   0x42, 0xed, 0x9e, 0x6e, 0x49, 0x3c, 0xcd, 0x43, 0x27, 0xd2, 0x07, 0xd4, 0xde, 0xc7, 0x67, 0x18,
   0x89, 0xcb, 0x30, 0x1f, 0x8d, 0xc6, 0x8f, 0xaa, 0xc8, 0x74, 0xdc, 0xc9, 0x5d, 0x5c, 0x31, 0xa4,
   0x70, 0x88, 0x61, 0x2c, 0x9f, 0x0d, 0x2b, 0x87, 0x50, 0x82, 0x54, 0x64, 0x26, 0x7d, 0x03, 0x40,
   0x34, 0x4b, 0x1c, 0x73, 0xd1, 0xc4, 0xfd, 0x3b, 0xcc, 0xfb, 0x7f, 0xab, 0xe6, 0x3e, 0x5b, 0xa5,
   0xad, 0x04, 0x23, 0x9c, 0x14, 0x51, 0x22, 0xf0, 0x29, 0x79, 0x71, 0x7e, 0xff, 0x8c, 0x0e, 0xe2,
   0x0c, 0xef, 0xbc, 0x72, 0x75, 0x6f, 0x37, 0xa1, 0xec, 0xd3, 0x8e, 0x62, 0x8b, 0x86, 0x10, 0xe8,
   0x08, 0x77, 0x11, 0xbe, 0x92, 0x4f, 0x24, 0xc5, 0x32, 0x36, 0x9d, 0xcf, 0xf3, 0xa6, 0xbb, 0xac,
   0x5e, 0x6c, 0xa9, 0x13, 0x57, 0x25, 0xb5, 0xe3, 0xbd, 0xa8, 0x3a, 0x01, 0x05, 0x59, 0x2a, 0x46]

/-- One byte round of the SKIP32 G permutation:
`ftable[x ^ key[i % 10]] ^ y`. -/
def skip32_gf (key : List Nat) (i x y : Nat) : Nat :=
  ftable.getD (x ^^^ key.getD (i % 10) 0) 0 ^^^ y

/-- SKIP32 G permutation: a four-round byte Feistel on one 16-bit word,
keyed by four bytes of the 10-byte key selected by the round index. -/
def skip32_g (key : List Nat) (k w : Nat) : Nat :=
  let g1 := w / 256 % 256
  let g2 := w % 256
  let g3 := skip32_gf key (4 * k) g2 g1
  let g4 := skip32_gf key (4 * k + 1) g3 g2
  let g5 := skip32_gf key (4 * k + 2) g4 g3
  let g6 := skip32_gf key (4 * k + 3) g5 g4
  g5 * 256 + g6

/-- One SKIP32 Feistel round: the stale half is XORed with
`G(fresh half) ^ round index`, then the halves swap roles. -/
def skip32_step (key : List Nat) (p : Nat × Nat) (k : Nat) : Nat × Nat :=
  (p.2 ^^^ skip32_g key k p.1 ^^^ k, p.1)

def skip32_rounds (key : List Nat) (ks : List Nat) (p : Nat × Nat) : Nat × Nat :=
  ks.foldl (skip32_step key) p

/-- `skip32::encode`: 24 Feistel rounds with ascending round indices;
the input 32-bit word is split big-endian into the halves `(wl, wr)`,
the right half is updated first, and the halves are swapped on output,
as in the reference implementation. -/
def skip32_encode (key : List Nat) (v : Nat) : Nat :=
  let wl := v / 65536 % 65536
  let wr := v % 65536
  let s := skip32_rounds key (List.range 24) (wl, wr)
  s.2 * 65536 + s.1

/-- `skip32::decode`: the same rounds with descending round indices. -/
def skip32_decode (key : List Nat) (v : Nat) : Nat :=
  let wl := v / 65536 % 65536
  let wr := v % 65536
  let s := skip32_rounds key (List.range 24).reverse (wl, wr)
  s.2 * 65536 + s.1

theorem xor_unstep (x g k : Nat) : x ^^^ g ^^^ k ^^^ g ^^^ k = x := by
  rw [Nat.xor_assoc (x ^^^ g) k g, Nat.xor_comm k g, ← Nat.xor_assoc (x ^^^ g) g k,
    Nat.xor_assoc x g g, Nat.xor_self, Nat.xor_zero, Nat.xor_assoc x k k,
    Nat.xor_self, Nat.xor_zero]

theorem skip32_step_swap (key : List Nat) (k : Nat) (p : Nat × Nat) :
    skip32_step key (Prod.swap (skip32_step key p k)) k = Prod.swap p := by
  cases p with
  | mk a b =>
    simp only [skip32_step, Prod.swap, xor_unstep]

theorem skip32_rounds_reverse (key : List Nat) (ks : List Nat) :
    ∀ p : Nat × Nat,
      skip32_rounds key ks.reverse (Prod.swap (skip32_rounds key ks p)) = Prod.swap p := by
  induction ks with
  | nil => intro p; rfl
  | cons k ks ih =>
    intro p
    have h1 : skip32_rounds key (k :: ks) p = skip32_rounds key ks (skip32_step key p k) := rfl
    have h2 : (k :: ks).reverse = ks.reverse ++ [k] := by simp
    rw [h1, h2]
    show (ks.reverse ++ [k]).foldl (skip32_step key)
        (Prod.swap (skip32_rounds key ks (skip32_step key p k))) = Prod.swap p
    rw [List.foldl_append]
    have h3 := ih (skip32_step key p k)
    show skip32_step key
        (skip32_rounds key ks.reverse (Prod.swap (skip32_rounds key ks (skip32_step key p k)))) k
        = Prod.swap p
    rw [h3, skip32_step_swap]

set_option maxRecDepth 20000 in
theorem ftable_getD_lt (i : Nat) : ftable.getD i 0 < 256 := by
  have hall : ∀ x ∈ ftable, x < 256 := by decide
  by_cases h : i < ftable.length
  · rw [List.getD_eq_getElem ftable 0 h]
    exact hall _ (List.getElem_mem h)
  · rw [List.getD_eq_default _ _ (Nat.le_of_not_lt h)]; norm_num

theorem xor_lt_256 (a b : Nat) (ha : a < 256) (hb : b < 256) : a ^^^ b < 256 := by
  have h := Nat.xor_lt_two_pow (x := a) (y := b) (n := 8) (by omega) (by omega)
  omega

theorem skip32_gf_lt (key : List Nat) (i x y : Nat) (hy : y < 256) :
    skip32_gf key i x y < 256 :=
  xor_lt_256 _ _ (ftable_getD_lt _) hy

theorem skip32_g_lt (key : List Nat) (k w : Nat) : skip32_g key k w < 65536 := by
  have h1 : w / 256 % 256 < 256 := Nat.mod_lt _ (by norm_num)
  have h2 : w % 256 < 256 := Nat.mod_lt _ (by norm_num)
  have hmul : ∀ a b : Nat, a < 256 → b < 256 → a * 256 + b < 65536 := by intros; omega
  simp only [skip32_g]
  exact hmul _ _ (skip32_gf_lt _ _ _ _ (skip32_gf_lt _ _ _ _ h1))
    (skip32_gf_lt _ _ _ _ (skip32_gf_lt _ _ _ _ h2))

theorem xor_lt_65536 (a b : Nat) (ha : a < 65536) (hb : b < 65536) : a ^^^ b < 65536 := by
  have h := Nat.xor_lt_two_pow (x := a) (y := b) (n := 16) (by omega) (by omega)
  omega

theorem skip32_rounds_bound (key : List Nat) (ks : List Nat) :
    ∀ p : Nat × Nat, (∀ k ∈ ks, k < 65536) → p.1 < 65536 → p.2 < 65536 →
      (skip32_rounds key ks p).1 < 65536 ∧ (skip32_rounds key ks p).2 < 65536 := by
  induction ks with
  | nil => intro p _ h1 h2; exact ⟨h1, h2⟩
  | cons k ks ih =>
    intro p hks h1 h2
    have hstep : (skip32_step key p k).1 < 65536 ∧ (skip32_step key p k).2 < 65536 := by
      constructor
      · exact xor_lt_65536 _ _ (xor_lt_65536 _ _ h2 (skip32_g_lt key k p.1))
          (hks k (List.mem_cons_self k ks))
      · exact h1
    exact ih (skip32_step key p k) (fun x hx => hks x (List.mem_cons_of_mem k hx))
      hstep.1 hstep.2

theorem skip32_bound_range24 (key : List Nat) (v : Nat) :
    (skip32_rounds key (List.range 24) (v / 65536 % 65536, v % 65536)).1 < 65536 ∧
      (skip32_rounds key (List.range 24) (v / 65536 % 65536, v % 65536)).2 < 65536 :=
  skip32_rounds_bound key (List.range 24) (v / 65536 % 65536, v % 65536)
    (fun k hk => lt_of_lt_of_le (List.mem_range.mp hk) (by norm_num))
    (Nat.mod_lt _ (by norm_num)) (Nat.mod_lt _ (by norm_num))

theorem skip32_encode_lt (key : List Nat) (v : Nat) :
    skip32_encode key v < 4294967296 := by
  have hb := skip32_bound_range24 key v
  simp only [skip32_encode]
  omega

/-- SKIP32 decode inverts encode on every 32-bit value. -/
theorem skip32_decode_encode (key : List Nat) (v : Nat) (h : v < 4294967296) :
    skip32_decode key (skip32_encode key v) = v := by
  obtain ⟨hb1, hb2⟩ := skip32_bound_range24 key v
  simp only [skip32_encode, skip32_decode]
  set s := skip32_rounds key (List.range 24) (v / 65536 % 65536, v % 65536) with hs
  have hmod : (s.2 * 65536 + s.1) % 65536 = s.1 := by omega
  have hdiv : (s.2 * 65536 + s.1) / 65536 % 65536 = s.2 := by omega
  rw [hmod, hdiv]
  have hswap : (s.2, s.1) = Prod.swap s := rfl
  rw [hswap, hs, skip32_rounds_reverse]
  simp only [Prod.swap]
  omega

/-- 32-bit left rotation (`u32::rotate_left`). -/
def rotl32 (x n : Nat) : Nat :=
  (x % 4294967296 * 2 ^ n + x % 4294967296 / 2 ^ (32 - n)) % 4294967296

/-- ChaCha20 quarter round on positions `ia ib ic id` of the 16-word
state (RFC 8439 §2.1), as computed by the orion AEAD backend. -/
def qround (s : List Nat) (ia ib ic id : Nat) : List Nat :=
  let a := s.getD ia 0
  let b := s.getD ib 0
  let c := s.getD ic 0
  let d := s.getD id 0
  let a := (a + b) % 4294967296
  let d := rotl32 (d ^^^ a) 16
  let c := (c + d) % 4294967296
  let b := rotl32 (b ^^^ c) 12
  let a := (a + b) % 4294967296
  let d := rotl32 (d ^^^ a) 8
  let c := (c + d) % 4294967296
  let b := rotl32 (b ^^^ c) 7
  (((s.set ia a).set ib b).set ic c).set id d

/-- One ChaCha20 double round: four column rounds then four diagonal
rounds (RFC 8439 §2.3). -/
def doubleRound (s : List Nat) : List Nat :=
  qround (qround (qround (qround (qround (qround (qround (qround
    s 0 4 8 12) 1 5 9 13) 2 6 10 14) 3 7 11 15) 0 5 10 15) 1 6 11 12) 2 7 8 13) 3 4 9 14

/-- Initial ChaCha20 state: four constants, eight key words, the block
counter, three nonce words; all words little-endian (RFC 8439 §2.3). -/
def chachaInit (key : List Nat) (counter : Nat) (nonce : List Nat) : List Nat :=
  [1634760805, 857760878, 2036477234, 1797285236] ++
    (List.range 8).map (fun i => read_u32_le (key.drop (4 * i))) ++
    [counter % 4294967296] ++
    (List.range 3).map (fun i => read_u32_le (nonce.drop (4 * i)))

/-- Little-endian serialization of a word list, four bytes per word. -/
def wordsToBytesLE : List Nat → List Nat
  | [] => []
  | w :: ws => leBytes 4 w ++ wordsToBytesLE ws

/-- One 64-byte ChaCha20 keystream block (RFC 8439 §2.3): ten double
rounds, then wordwise addition of the initial state. -/
def chachaBlock (key : List Nat) (counter : Nat) (nonce : List Nat) : List Nat :=
  let s0 := chachaInit key counter nonce
  wordsToBytesLE (List.zipWith (fun a b => (a + b) % 4294967296) (doubleRound^[10] s0) s0)

/-- `count` consecutive keystream blocks starting at block `counter`. -/
def ksBlocks (key : List Nat) (nonce : List Nat) : Nat → Nat → List Nat
  | 0, _ => []
  | c + 1, counter => chachaBlock key counter nonce ++ ksBlocks key nonce c (counter + 1)

/-- The ChaCha20 keystream used for AEAD payload encryption: blocks
start at counter 1 (block 0 feeds the Poly1305 key), truncated to the
message length (RFC 8439 §2.8). -/
def keystream (key : List Nat) (nonce : List Nat) (len : Nat) : List Nat :=
  (ksBlocks key nonce ((len + 63) / 64) 1).take len

/-- A little-endian byte list read as one natural number. -/
def read_le_nat (l : List Nat) : Nat :=
  l.foldr (fun b acc => b % 256 + 256 * acc) 0

/-- Poly1305 accumulator loop (RFC 8439 §2.5): the message is processed
in 16-byte chunks, each read little-endian with a high `1` bit appended;
`fuel` bounds the recursion and is instantiated with the message length. -/
def polyAux (r : Nat) : Nat → Nat → List Nat → Nat
  | _, acc, [] => acc
  | 0, acc, _ => acc
  | fuel + 1, acc, msg =>
    let c := msg.take 16
    let n := read_le_nat c + 2 ^ (8 * c.length)
    polyAux r fuel ((acc + n) * r % 1361129467683753853853498429727072845819) (msg.drop 16)

/-- Poly1305 MAC (RFC 8439 §2.5): `r` is the clamped low half of the
one-time key, `s` the high half; the tag is the low 128 bits of
`acc + s`, serialized little-endian. -/
def poly1305_tag (onetimekey : List Nat) (msg : List Nat) : List Nat :=
  let r := read_le_nat (onetimekey.take 16) &&& 21267647620597763993911028882763415551
  let s := read_le_nat ((onetimekey.drop 16).take 16)
  leBytes 16 (polyAux r msg.length 0 msg + s)

/-- The bytes authenticated by the AEAD tag when the associated data is
empty (RFC 8439 §2.8, as orion builds it): the ciphertext, zero padding
to a 16-byte boundary, the 8-byte length of the (empty) associated data,
and the 8-byte ciphertext length, both little-endian. -/
def macData (ct : List Nat) : List Nat :=
  ct ++ List.replicate ((16 - ct.length % 16) % 16) 0 ++ leBytes 8 0 ++ leBytes 8 ct.length

/-- The Poly1305 one-time key: the first 32 bytes of ChaCha20 block 0
(RFC 8439 §2.6). -/
def polyOneTimeKey (key : List Nat) (nonce : List Nat) : List Nat :=
  (chachaBlock key 0 nonce).take 32

/-- `orion::hazardous::aead::chacha20poly1305::seal` with no associated
data: XOR the plaintext with the keystream and append the 16-byte
Poly1305 tag over the ciphertext. -/
def chacha20poly1305_seal (key nonce pt : List Nat) : List Nat :=
  let ct := List.zipWith (fun a b => a ^^^ b) pt (keystream key nonce pt.length)
  ct ++ poly1305_tag (polyOneTimeKey key nonce) (macData ct)

/-- `orion::hazardous::aead::chacha20poly1305::open` with no associated
data: split off the trailing 16-byte tag, verify it over the ciphertext,
and on success XOR the ciphertext with the keystream. -/
def chacha20poly1305_open (key nonce input : List Nat) : Option (List Nat) :=
  if input.length < 16 then none
  else
    let ct := input.take (input.length - 16)
    let tag := input.drop (input.length - 16)
    if poly1305_tag (polyOneTimeKey key nonce) (macData ct) = tag then
      some (List.zipWith (fun a b => a ^^^ b) ct (keystream key nonce ct.length))
    else none

theorem length_qround (s : List Nat) (ia ib ic id : Nat) :
    (qround s ia ib ic id).length = s.length := by
  simp [qround]

theorem length_doubleRound (s : List Nat) : (doubleRound s).length = s.length := by
  simp [doubleRound, length_qround]

theorem length_doubleRound_iterate (n : Nat) (s : List Nat) :
    (doubleRound^[n] s).length = s.length := by
  induction n with
  | zero => rfl
  | succ n ih => rw [Function.iterate_succ_apply', length_doubleRound, ih]

theorem length_chachaInit (key : List Nat) (counter : Nat) (nonce : List Nat) :
    (chachaInit key counter nonce).length = 16 := by
  simp [chachaInit]

theorem length_wordsToBytesLE (ws : List Nat) :
    (wordsToBytesLE ws).length = 4 * ws.length := by
  induction ws with
  | nil => rfl
  | cons w ws ih => simp [wordsToBytesLE, ih, length_leBytes]; omega

theorem length_chachaBlock (key : List Nat) (counter : Nat) (nonce : List Nat) :
    (chachaBlock key counter nonce).length = 64 := by
  simp only [chachaBlock]
  rw [length_wordsToBytesLE, List.length_zipWith, length_doubleRound_iterate,
    length_chachaInit]
  norm_num

theorem length_ksBlocks (key nonce : List Nat) (c counter : Nat) :
    (ksBlocks key nonce c counter).length = 64 * c := by
  induction c generalizing counter with
  | zero => rfl
  | succ c ih => simp [ksBlocks, length_chachaBlock, ih]; omega

theorem length_keystream (key nonce : List Nat) (len : Nat) :
    (keystream key nonce len).length = len := by
  rw [keystream, List.length_take, length_ksBlocks]
  omega

theorem length_poly1305_tag (onetimekey msg : List Nat) :
    (poly1305_tag onetimekey msg).length = 16 := by
  simp [poly1305_tag, length_leBytes]

theorem zip_xor_cancel (pt ks : List Nat) (h : pt.length ≤ ks.length) :
    List.zipWith (fun a b => a ^^^ b)
      (List.zipWith (fun a b => a ^^^ b) pt ks) ks = pt := by
  induction pt generalizing ks with
  | nil => simp
  | cons x xs ih =>
    cases ks with
    | nil => simp at h
    | cons y ys =>
      simp only [List.zipWith_cons_cons, List.cons.injEq]
      refine ⟨?_, ih ys (by simpa using h)⟩
      rw [Nat.xor_assoc, Nat.xor_self, Nat.xor_zero]

/-- AEAD round trip: opening a sealed message with the same key and
nonce recovers the plaintext. -/
theorem chacha20poly1305_open_seal (key nonce pt : List Nat) :
    chacha20poly1305_open key nonce (chacha20poly1305_seal key nonce pt) = some pt := by
  set ks := keystream key nonce pt.length with hks_def
  set ct := List.zipWith (fun a b => a ^^^ b) pt ks with hct_def
  set tg := poly1305_tag (polyOneTimeKey key nonce) (macData ct) with htg_def
  have hks : ks.length = pt.length := length_keystream key nonce pt.length
  have hct : ct.length = pt.length := by
    rw [hct_def, List.length_zipWith, hks, Nat.min_self]
  have htg : tg.length = 16 := length_poly1305_tag _ _
  have hseal : chacha20poly1305_seal key nonce pt = ct ++ tg := rfl
  rw [hseal]
  simp only [chacha20poly1305_open]
  rw [List.length_append, hct, htg]
  rw [if_neg (by omega : ¬ pt.length + 16 < 16)]
  have hsub : pt.length + 16 - 16 = pt.length := by omega
  rw [hsub]
  have htake : (ct ++ tg).take pt.length = ct := by
    rw [← hct]; exact List.take_left ct tg
  have hdrop : (ct ++ tg).drop pt.length = tg := by
    rw [← hct]; exact List.drop_left ct tg
  rw [htake, hdrop, ← htg_def, if_pos rfl, hct, ← hks_def]
  exact congrArg some (by rw [hct_def]; exact zip_xor_cancel pt ks (le_of_eq hks.symm))

theorem length_seal (key nonce pt : List Nat) :
    (chacha20poly1305_seal key nonce pt).length = pt.length + 16 := by
  simp only [chacha20poly1305_seal]
  rw [List.length_append, List.length_zipWith, length_keystream, Nat.min_self,
    length_poly1305_tag]

/-- Modelled from the spec: `src/mux/event.rs` is not under `src/`.
`flag_len` packs a flag tag in the high 8 bits and the body length in
the low 24 bits; `stream_id` is the 32-bit logical stream id. -/
structure Header where
  flag_len : Nat
  stream_id : Nat
deriving DecidableEq

/-- Modelled from the spec: the flag tag is the high byte of
`flag_len`. -/
def Header.flags (h : Header) : Nat := h.flag_len / 16777216 % 256

/-- Modelled from the spec: the body length is the low 24 bits of
`flag_len`. -/
def Header.len (h : Header) : Nat := h.flag_len % 16777216

/-- Modelled from the spec: the wire header is two 32-bit words. -/
def EVENT_HEADER_LEN : Nat := 8

/-- Modelled from the spec: flag tags in the spec's order.  The spec
does not fix the numeric values; only their distinctness is used. -/
def FLAG_SYN : Nat := 1

def FLAG_FIN : Nat := 2

def FLAG_DATA : Nat := 3

def FLAG_WIN_UPDATE : Nat := 4

def FLAG_PING : Nat := 5

def FLAG_AUTH : Nat := 6

def FLAG_SHUTDOWN : Nat := 7

/-- Modelled from the spec: the atomic protocol unit.  `local` is the
implementation's direction marker; decrypters always emit `false`. -/
structure Event where
  header : Header
  body : List Nat
  local_ : Bool
deriving DecidableEq

/-- An event respecting the data model: when the flag carries a body
(`DATA`/`AUTH` with non-zero length field) the body has exactly the
declared length, otherwise the body is empty. -/
def Event.wellFormed (ev : Event) : Bool :=
  if (ev.header.flags = FLAG_DATA || ev.header.flags = FLAG_AUTH) && ev.header.len != 0 then
    ev.body.length = ev.header.len
  else
    ev.body.isEmpty

/-- The two supported cipher methods (`crypto.rs` selects encrypt and
decrypt function pointers from the method string in
`CryptoContext::new`; the `_ => panic!` arm of unknown methods has no
counterpart in this exhaustive type). -/
inductive Method where
  | none
  | chacha20poly1305
deriving DecidableEq

/-- `CryptoContext` (crypto.rs lines 13-19): padded key bytes, the two
direction nonces, and the method selecting the paired encrypter and
decrypter function pointers. -/
structure CryptoContext where
  method : Method
  key : List Nat
  encrypt_nonce : Nat
  decrypt_nonce : Nat
deriving DecidableEq

/-- Decrypt errors are `(u32, &'static str)` pairs: a NEED request for
`n` more bytes is `(n, "")`, a fatal AEAD failure has a non-empty
reason string (see `read_encrypt_event`, which treats a non-empty
reason as fatal). -/
def DecryptError : Type := Nat × String

instance : DecidableEq DecryptError := instDecidableEqProd

instance : DecidableEq (Except DecryptError Event) := fun a b =>
  match a, b with
  | .ok x, .ok y =>
    if h : x = y then .isTrue (by rw [h]) else .isFalse (fun hc => h (Except.ok.inj hc))
  | .ok _, .error _ => .isFalse (fun hc => Except.noConfusion hc)
  | .error _, .ok _ => .isFalse (fun hc => Except.noConfusion hc)
  | .error x, .error y =>
    if h : x = y then .isTrue (by rw [h]) else .isFalse (fun hc => h (Except.error.inj hc))

/-- `none_encrypt_event` (crypto.rs lines 81-88): plain header then the
body verbatim (the `if ev.body.len() > 0` guard only skips an empty
append). -/
def none_encrypt_event (ctx : CryptoContext) (ev : Event) : List Nat :=
  leBytes 4 ev.header.flag_len ++ leBytes 4 ev.header.stream_id ++
    (if ev.body.length > 0 then ev.body else [])

/-- `none_decrypt_event` (crypto.rs lines 90-130). -/
def none_decrypt_event (ctx : CryptoContext) (buf : List Nat) :
    Except DecryptError Event × List Nat :=
  if buf.length < EVENT_HEADER_LEN then
    (.error (EVENT_HEADER_LEN - buf.length, ""), buf)
  else
    let e1 := read_u32_le buf
    let e2 := read_u32_le (buf.drop 4)
    let header : Header := ⟨e1, e2⟩
    let flags := header.flags
    if (FLAG_DATA ≠ flags ∧ FLAG_AUTH ≠ flags) ∨ 0 = header.len then
      (.ok ⟨header, [], false⟩, buf.drop EVENT_HEADER_LEN)
    else if buf.length - EVENT_HEADER_LEN < header.len then
      (.error (header.len + EVENT_HEADER_LEN - buf.length, ""), buf)
    else
      let rest := buf.drop EVENT_HEADER_LEN
      (.ok ⟨header, rest.take header.len, false⟩, rest.drop header.len)

/-- The 10-byte skip32 subkey (crypto.rs lines 133-135 and 172-174):
the first two key bytes followed by the 8-byte little-endian nonce. -/
def skip32_subkey (key : List Nat) (nonce : Nat) : List Nat :=
  key.take 2 ++ leBytes 8 nonce

/-- The 12-byte AEAD nonce (crypto.rs lines 143, 149, 207-208): the
64-bit nonce counter widened to `u128`, encoded as 16 little-endian
bytes, truncated to the leading 12. -/
def aeadNonce (nonce : Nat) : List Nat :=
  (leBytes 16 (nonce % 18446744073709551616)).take 12

/-- `chacha20poly1305_encrypt_event` (crypto.rs lines 132-163): both
header words obfuscated with skip32 under the nonce subkey, then, for a
non-empty body, the AEAD sealed body (ciphertext plus 16-byte tag). -/
def chacha20poly1305_encrypt_event (ctx : CryptoContext) (ev : Event) : List Nat :=
  let sk := skip32_subkey ctx.key ctx.encrypt_nonce
  let e1 := skip32_encode sk ev.header.flag_len
  let e2 := skip32_encode sk ev.header.stream_id
  leBytes 4 e1 ++ leBytes 4 e2 ++
    (if ev.body.length > 0 then
      chacha20poly1305_seal (ctx.key.take 32) (aeadNonce ctx.encrypt_nonce) ev.body
    else [])

/-- `chacha20poly1305_decrypt_event` (crypto.rs lines 165-222).  Note
the header is consumed (line 200) before the AEAD open, so a tag
failure leaves the buffer advanced past the header. -/
def chacha20poly1305_decrypt_event (ctx : CryptoContext) (buf : List Nat) :
    Except DecryptError Event × List Nat :=
  if buf.length < EVENT_HEADER_LEN then
    (.error (EVENT_HEADER_LEN - buf.length, ""), buf)
  else
    let sk := skip32_subkey ctx.key ctx.decrypt_nonce
    let e1 := skip32_decode sk (read_u32_le buf)
    let e2 := skip32_decode sk (read_u32_le (buf.drop 4))
    let header : Header := ⟨e1, e2⟩
    let flags := header.flags
    if (FLAG_DATA ≠ flags ∧ FLAG_AUTH ≠ flags) ∨ 0 = header.len then
      (.ok ⟨header, [], false⟩, buf.drop EVENT_HEADER_LEN)
    else if buf.length - EVENT_HEADER_LEN < header.len + 16 then
      (.error (header.len + EVENT_HEADER_LEN + 16 - buf.length, ""), buf)
    else
      let rest := buf.drop EVENT_HEADER_LEN
      match chacha20poly1305_open (ctx.key.take 32) (aeadNonce ctx.decrypt_nonce)
          (rest.take (header.len + 16)) with
      | some body => (.ok ⟨header, body, false⟩, rest.drop (header.len + 16))
      | none => (.error (0, "Decrypt error"), rest)

/-- `CryptoContext::encrypt` (crypto.rs lines 27-30): dispatch through
the method's encrypter, then advance the encrypt nonce by one. -/
def CryptoContext.encrypt (ctx : CryptoContext) (ev : Event) : List Nat × CryptoContext :=
  (match ctx.method with
    | .none => none_encrypt_event ctx ev
    | .chacha20poly1305 => chacha20poly1305_encrypt_event ctx ev,
   { ctx with encrypt_nonce := ctx.encrypt_nonce + 1 })

/-- `CryptoContext::decrypt` (crypto.rs lines 31-40): dispatch through
the method's decrypter; the decrypt nonce advances by one exactly when
the result is `Ok`. -/
def CryptoContext.decrypt (ctx : CryptoContext) (buf : List Nat) :
    Except DecryptError Event × CryptoContext × List Nat :=
  let r := match ctx.method with
    | .none => none_decrypt_event ctx buf
    | .chacha20poly1305 => chacha20poly1305_decrypt_event ctx buf
  match r with
  | (.ok ev, buf') => (.ok ev, { ctx with decrypt_nonce := ctx.decrypt_nonce + 1 }, buf')
  | (.error e, buf') => (.error e, ctx, buf')

/-- `CryptoContext::reset` (crypto.rs lines 42-45). -/
def CryptoContext.reset (ctx : CryptoContext) (nonce : Nat) : CryptoContext :=
  { ctx with encrypt_nonce := nonce, decrypt_nonce := nonce }

/-- The key padding loop of `CryptoContext::new` (crypto.rs lines
226-229): push `'F'` (byte 70) while the key is shorter than 32 bytes.
The fuel argument bounds the loop; 32 iterations always suffice since
each one lengthens the key by one byte. -/
def padKeyAux : Nat → List Nat → List Nat
  | 0, k => k
  | fuel + 1, k => if k.length < 32 then padKeyAux fuel (k ++ [70]) else k

def padKey (k : List Nat) : List Nat := padKeyAux 32 k

/-- `CryptoContext::new` (crypto.rs lines 225-248): pad the key and
seed both nonces; the method picks the encrypter and decrypter pair. -/
def CryptoContext.new (method : Method) (k : List Nat) (nonce : Nat) : CryptoContext :=
  { method := method
    key := padKey k
    encrypt_nonce := nonce
    decrypt_nonce := nonce }

/-- Modelled from the spec: the handshake response payload
`{success: bool, rand: u64}` (`crate::rmux::AuthResponse` is not under
`src/`). -/
structure AuthResponse where
  success : Bool
  rand : Nat
deriving DecidableEq

/-- The I/O error kinds `init_client` can surface from the
authentication step. -/
inductive HandshakeError where
  | connectionRefused
deriving DecidableEq

/-- The authentication-response decision of `init_client`
(`src/channel/rmux.rs` lines 45-58), embedded as a pure function of the
deserialized response: a rejected response aborts with
`ErrorKind::ConnectionRefused`; an accepted one rebuilds both crypto
contexts with the same method and key, seeded at nonce `rand`, and the
session proceeds with that pair (read context first, write context
second, as passed to `MuxContext::new`).  The transport reads and
writes around this decision are I/O and are not modelled. -/
def init_client_auth (method : Method) (key : List Nat) (decoded : AuthResponse) :
    Except HandshakeError (CryptoContext × CryptoContext) :=
  if !decoded.success then
    .error .connectionRefused
  else
    .ok (CryptoContext.new method key decoded.rand, CryptoContext.new method key decoded.rand)

/-- Encrypt a list of events in order with one context (the writer loop:
each event is sealed with the current encrypt nonce, which advances by
one per event); returns the concatenated frames and the final context. -/
def encryptAll (ctx : CryptoContext) : List Event → List Nat × CryptoContext
  | [] => ([], ctx)
  | ev :: evs =>
    let fc := ctx.encrypt ev
    let rc := encryptAll fc.2 evs
    (fc.1 ++ rc.1, rc.2)

/-- Decrypt `n` consecutive events from a buffer (the reader loop),
aborting on the first error; returns the events, the final context and
the unconsumed residue. -/
def decryptTimes (ctx : CryptoContext) (buf : List Nat) :
    Nat → Except DecryptError (List Event) × CryptoContext × List Nat
  | 0 => (.ok [], ctx, buf)
  | n + 1 =>
    match ctx.decrypt buf with
    | (.ok ev, ctx', buf') =>
      match decryptTimes ctx' buf' n with
      | (.ok evs, c, b) => (.ok (ev :: evs), c, b)
      | (.error e, c, b) => (.error e, c, b)
    | (.error e, ctx', buf') => (.error e, ctx', buf')

theorem padKeyAux_closed (fuel : Nat) (k : List Nat) (h : 32 - k.length ≤ fuel) :
    padKeyAux fuel k = k ++ List.replicate (32 - k.length) 70 := by
  induction fuel generalizing k with
  | zero =>
    have h0 : 32 - k.length = 0 := by omega
    rw [padKeyAux, h0, List.replicate_zero, List.append_nil]
  | succ fuel ih =>
    rw [padKeyAux]
    by_cases hlt : k.length < 32
    · rw [if_pos hlt, ih (k ++ [70]) (by simp; omega)]
      rw [List.append_assoc]
      congr 1
      have h1 : 32 - k.length = (32 - (k ++ [70]).length) + 1 := by simp; omega
      rw [h1, List.replicate_succ]
      simp
    · rw [if_neg hlt]
      have h0 : 32 - k.length = 0 := by omega
      rw [h0, List.replicate_zero, List.append_nil]

theorem padKey_closed (k : List Nat) :
    padKey k = k ++ List.replicate (32 - k.length) 70 :=
  padKeyAux_closed 32 k (by omega)

theorem padKey_length (k : List Nat) : 32 ≤ (padKey k).length := by
  rw [padKey_closed, List.length_append, List.length_replicate]
  omega

theorem encryptAll_nonce (evs : List Event) :
    ∀ ctx : CryptoContext,
      (encryptAll ctx evs).2.encrypt_nonce = ctx.encrypt_nonce + evs.length ∧
        (encryptAll ctx evs).2.decrypt_nonce = ctx.decrypt_nonce ∧
        (encryptAll ctx evs).2.key = ctx.key ∧
        (encryptAll ctx evs).2.method = ctx.method := by
  induction evs with
  | nil => intro ctx; exact ⟨rfl, rfl, rfl, rfl⟩
  | cons ev evs ih =>
    intro ctx
    have h := ih (ctx.encrypt ev).2
    simp only [encryptAll]
    refine ⟨?_, ?_, ?_, ?_⟩
    · rw [h.1]; simp [CryptoContext.encrypt]; omega
    · rw [h.2.1]; simp [CryptoContext.encrypt]
    · rw [h.2.2.1]; simp [CryptoContext.encrypt]
    · rw [h.2.2.2]; simp [CryptoContext.encrypt]

theorem drop_leBytes4 (a : Nat) (X : List Nat) : (leBytes 4 a ++ X).drop 4 = X := by
  have h := List.drop_left (leBytes 4 a) X
  rwa [length_leBytes] at h

theorem drop8_two_leBytes (a b : Nat) (X : List Nat) :
    (leBytes 4 a ++ (leBytes 4 b ++ X)).drop 8 = X := by
  have h : (leBytes 4 a ++ (leBytes 4 b ++ X)).drop 8
      = ((leBytes 4 a ++ (leBytes 4 b ++ X)).drop 4).drop 4 := by
    rw [List.drop_drop]
  rw [h, drop_leBytes4, drop_leBytes4]

theorem if_pos_body (b : List Nat) (x : List Nat) (hb : b ≠ []) :
    (if b.length > 0 then x else []) = x := by
  rw [if_pos]
  cases b with
  | nil => exact absurd rfl hb
  | cons c cs => simp

theorem if_body_self (b : List Nat) : (if b.length > 0 then b else []) = b := by
  cases b with
  | nil => simp
  | cons c cs => simp

/-- The body-carrying condition of the decrypters, as the decrypters
test it. -/
theorem decrypt_branch_iff (f l : Nat) :
    ((FLAG_DATA ≠ f ∧ FLAG_AUTH ≠ f) ∨ 0 = l) ↔ ¬ ((f = FLAG_DATA ∨ f = FLAG_AUTH) ∧ l ≠ 0) := by
  constructor
  · rintro (⟨h1, h2⟩ | h) ⟨hf, hl⟩
    · rcases hf with hf | hf
      · exact h1 hf.symm
      · exact h2 hf.symm
    · exact hl h.symm
  · intro h
    by_cases hf : f = FLAG_DATA ∨ f = FLAG_AUTH
    · right
      by_contra hl
      exact h ⟨hf, fun he => hl he.symm⟩
    · left
      push_neg at hf
      exact ⟨fun he => hf.1 he.symm, fun he => hf.2 he.symm⟩

theorem wellFormed_body_len (ev : Event) (hwf : ev.wellFormed = true)
    (h : (ev.header.flags = FLAG_DATA ∨ ev.header.flags = FLAG_AUTH) ∧ ev.header.len ≠ 0) :
    ev.body.length = ev.header.len := by
  rw [Event.wellFormed] at hwf
  rcases h with ⟨hf, hl⟩
  rcases hf with hf | hf <;>
    simp [hf, hl] at hwf <;> exact hwf

theorem wellFormed_body_nil (ev : Event) (hwf : ev.wellFormed = true)
    (h : ¬ ((ev.header.flags = FLAG_DATA ∨ ev.header.flags = FLAG_AUTH) ∧ ev.header.len ≠ 0)) :
    ev.body = [] := by
  rw [Event.wellFormed] at hwf
  by_cases hf : ev.header.flags = FLAG_DATA ∨ ev.header.flags = FLAG_AUTH
  · have hl : ev.header.len = 0 := by
      by_contra hl
      exact h ⟨hf, hl⟩
    rcases hf with hf | hf <;>
      simp [hf, hl, List.isEmpty_iff] at hwf <;> exact hwf
  · push_neg at hf
    simp [hf.1, hf.2, List.isEmpty_iff] at hwf
    exact hwf

/-- Header structure eta. -/
theorem Header.eta (h : Header) : (⟨h.flag_len, h.stream_id⟩ : Header) = h := rfl

/-- `none` round trip against an arbitrary trailing buffer: decrypting
a frame produced by `none_encrypt_event` returns the event (direction
marker cleared) and consumes exactly the frame. -/
theorem none_decrypt_encrypt (ctx ctx' : CryptoContext) (ev : Event) (rest : List Nat)
    (hwf : ev.wellFormed = true)
    (h1 : ev.header.flag_len < 4294967296)
    (h2 : ev.header.stream_id < 4294967296) :
    none_decrypt_event ctx' (none_encrypt_event ctx ev ++ rest) =
      (.ok ⟨ev.header, ev.body, false⟩, rest) := by
  have henc : none_encrypt_event ctx ev ++ rest
      = leBytes 4 ev.header.flag_len ++ (leBytes 4 ev.header.stream_id ++ (ev.body ++ rest)) := by
    rw [none_encrypt_event, if_body_self, List.append_assoc, List.append_assoc]
  rw [henc]
  have hlen : (leBytes 4 ev.header.flag_len
      ++ (leBytes 4 ev.header.stream_id ++ (ev.body ++ rest))).length
      = 8 + ev.body.length + rest.length := by
    simp [length_leBytes]
    omega
  have he1 : read_u32_le (leBytes 4 ev.header.flag_len
      ++ (leBytes 4 ev.header.stream_id ++ (ev.body ++ rest))) = ev.header.flag_len := by
    rw [read_u32_le_leBytes, Nat.mod_eq_of_lt h1]
  have he2 : read_u32_le ((leBytes 4 ev.header.flag_len
      ++ (leBytes 4 ev.header.stream_id ++ (ev.body ++ rest))).drop 4) = ev.header.stream_id := by
    rw [drop_leBytes4, read_u32_le_leBytes, Nat.mod_eq_of_lt h2]
  simp only [none_decrypt_event, EVENT_HEADER_LEN, hlen, he1, he2, Header.eta]
  rw [if_neg (by omega : ¬ 8 + ev.body.length + rest.length < 8)]
  by_cases hc : (FLAG_DATA ≠ ev.header.flags ∧ FLAG_AUTH ≠ ev.header.flags) ∨ 0 = ev.header.len
  · have hnil : ev.body = [] :=
      wellFormed_body_nil ev hwf ((decrypt_branch_iff _ _).mp hc)
    rw [if_pos hc]
    rw [hnil, List.nil_append, drop8_two_leBytes]
  · have hbody : ev.body.length = ev.header.len :=
      wellFormed_body_len ev hwf (not_not.mp ((decrypt_branch_iff _ _).not.mp hc))
    rw [if_neg hc]
    rw [if_neg (by omega : ¬ 8 + ev.body.length + rest.length - 8 < ev.header.len)]
    rw [drop8_two_leBytes, ← hbody, List.take_left, List.drop_left]

/-- `chacha20poly1305` round trip against an arbitrary trailing buffer:
a decrypter whose key and decrypt nonce match the encrypter's key and
encrypt nonce recovers the event and consumes exactly the frame. -/
theorem chacha20poly1305_decrypt_encrypt (ctxe ctxd : CryptoContext) (ev : Event)
    (rest : List Nat)
    (hk : ctxd.key = ctxe.key)
    (hn : ctxd.decrypt_nonce = ctxe.encrypt_nonce)
    (hwf : ev.wellFormed = true)
    (h1 : ev.header.flag_len < 4294967296)
    (h2 : ev.header.stream_id < 4294967296) :
    chacha20poly1305_decrypt_event ctxd (chacha20poly1305_encrypt_event ctxe ev ++ rest) =
      (.ok ⟨ev.header, ev.body, false⟩, rest) := by
  set sk := skip32_subkey ctxe.key ctxe.encrypt_nonce with hsk
  set E1 := skip32_encode sk ev.header.flag_len with hE1
  set E2 := skip32_encode sk ev.header.stream_id with hE2
  set tail := (if ev.body.length > 0 then
      chacha20poly1305_seal (ctxe.key.take 32) (aeadNonce ctxe.encrypt_nonce) ev.body
    else []) with htail
  have henc : chacha20poly1305_encrypt_event ctxe ev ++ rest
      = leBytes 4 E1 ++ (leBytes 4 E2 ++ (tail ++ rest)) := by
    rw [chacha20poly1305_encrypt_event, List.append_assoc, List.append_assoc]
  rw [henc]
  have he1 : read_u32_le (leBytes 4 E1 ++ (leBytes 4 E2 ++ (tail ++ rest))) = E1 := by
    rw [read_u32_le_leBytes, Nat.mod_eq_of_lt (skip32_encode_lt sk ev.header.flag_len)]
  have he2 : read_u32_le ((leBytes 4 E1 ++ (leBytes 4 E2 ++ (tail ++ rest))).drop 4) = E2 := by
    rw [drop_leBytes4, read_u32_le_leBytes, Nat.mod_eq_of_lt (skip32_encode_lt sk _)]
  have hd1 : skip32_decode sk E1 = ev.header.flag_len := by
    rw [hE1, skip32_decode_encode sk _ h1]
  have hd2 : skip32_decode sk E2 = ev.header.stream_id := by
    rw [hE2, skip32_decode_encode sk _ h2]
  by_cases hc : (FLAG_DATA ≠ ev.header.flags ∧ FLAG_AUTH ≠ ev.header.flags) ∨ 0 = ev.header.len
  · have hnil : ev.body = [] :=
      wellFormed_body_nil ev hwf ((decrypt_branch_iff _ _).mp hc)
    have htail_nil : tail = [] := by rw [htail, hnil]; simp
    have hlen : (leBytes 4 E1 ++ (leBytes 4 E2 ++ (tail ++ rest))).length
        = 8 + rest.length := by
      rw [htail_nil]
      simp [length_leBytes]
      omega
    simp only [chacha20poly1305_decrypt_event, EVENT_HEADER_LEN, hlen, hk, hn, ← hsk,
      he1, he2, hd1, hd2, Header.eta]
    rw [if_neg (by omega : ¬ 8 + rest.length < 8), if_pos hc]
    rw [htail_nil, List.nil_append, drop8_two_leBytes, hnil]
  · have hnc := not_not.mp ((decrypt_branch_iff ev.header.flags ev.header.len).not.mp hc)
    have hbody : ev.body.length = ev.header.len :=
      wellFormed_body_len ev hwf hnc
    have hpos : ev.body.length > 0 := by
      have := hnc.2
      omega
    have htail_seal : tail
        = chacha20poly1305_seal (ctxe.key.take 32) (aeadNonce ctxe.encrypt_nonce) ev.body := by
      rw [htail, if_pos hpos]
    have htail_len : tail.length = ev.header.len + 16 := by
      rw [htail_seal, length_seal, hbody]
    have hlen : (leBytes 4 E1 ++ (leBytes 4 E2 ++ (tail ++ rest))).length
        = 8 + (ev.header.len + 16) + rest.length := by
      simp [length_leBytes, htail_len]
      omega
    have htake : (tail ++ rest).take (ev.header.len + 16) = tail := by
      rw [← htail_len, List.take_left]
    have hdrop : (tail ++ rest).drop (ev.header.len + 16) = rest := by
      rw [← htail_len, List.drop_left]
    have hopen : chacha20poly1305_open (ctxe.key.take 32) (aeadNonce ctxe.encrypt_nonce) tail
        = some ev.body := by
      rw [htail_seal, chacha20poly1305_open_seal]
    simp only [chacha20poly1305_decrypt_event, EVENT_HEADER_LEN, hlen, hk, hn, ← hsk,
      he1, he2, hd1, hd2, Header.eta]
    rw [if_neg (by omega : ¬ 8 + (ev.header.len + 16) + rest.length < 8), if_neg hc]
    rw [if_neg (by omega :
      ¬ 8 + (ev.header.len + 16) + rest.length - 8 < ev.header.len + 16)]
    rw [drop8_two_leBytes, htake, hopen, hdrop]

/-- Round trip through the stateful wrappers: a decrypt context whose
method, key and decrypt nonce match the encrypt context's method, key
and encrypt nonce consumes exactly the frame, returns the event, and
advances its decrypt nonce by one. -/
theorem decrypt_encrypt_frame (ctxe ctxd : CryptoContext) (ev : Event) (rest : List Nat)
    (hm : ctxd.method = ctxe.method)
    (hk : ctxd.key = ctxe.key)
    (hn : ctxd.decrypt_nonce = ctxe.encrypt_nonce)
    (hwf : ev.wellFormed = true)
    (h1 : ev.header.flag_len < 4294967296)
    (h2 : ev.header.stream_id < 4294967296)
    (hloc : ev.local_ = false) :
    CryptoContext.decrypt ctxd ((CryptoContext.encrypt ctxe ev).1 ++ rest) =
      (.ok ev, { ctxd with decrypt_nonce := ctxd.decrypt_nonce + 1 }, rest) := by
  have hev : (⟨ev.header, ev.body, false⟩ : Event) = ev := by
    cases ev with
    | mk h b l =>
      simp only at hloc
      rw [hloc]
  cases hme : ctxe.method with
  | none =>
    have hrt := none_decrypt_encrypt ctxe ctxd ev rest hwf h1 h2
    rw [hev] at hrt
    simp only [CryptoContext.encrypt, CryptoContext.decrypt, hme, hm, hrt]
  | chacha20poly1305 =>
    have hrt := chacha20poly1305_decrypt_encrypt ctxe ctxd ev rest hk hn hwf h1 h2
    rw [hev] at hrt
    simp only [CryptoContext.encrypt, CryptoContext.decrypt, hme, hm, hrt]

/-- C1.  For every crypto context whose two nonces agree (as every
context built by `CryptoContext::new` or reseeded by `reset` does,
whichever of the two methods it uses) and every event of the data model
(declared length matching the body, no stray body on control flags,
32-bit header words, direction marker cleared), decrypting the buffer
produced by encrypting the event yields the event back with an empty
residue, and the round trip advances the encrypt nonce and the decrypt
nonce by exactly one each. -/
theorem claim_c1_roundtrip (ctx : CryptoContext) (ev : Event)
    (hnonce : ctx.decrypt_nonce = ctx.encrypt_nonce)
    (hwf : ev.wellFormed = true)
    (h1 : ev.header.flag_len < 4294967296)
    (h2 : ev.header.stream_id < 4294967296)
    (hloc : ev.local_ = false) :
    CryptoContext.decrypt (ctx.encrypt ev).2 (ctx.encrypt ev).1 =
      (.ok ev,
        { ctx with encrypt_nonce := ctx.encrypt_nonce + 1,
                   decrypt_nonce := ctx.decrypt_nonce + 1 }, []) ∧
    (ctx.encrypt ev).2.encrypt_nonce = ctx.encrypt_nonce + 1 ∧
    (CryptoContext.decrypt (ctx.encrypt ev).2 (ctx.encrypt ev).1).2.1.decrypt_nonce
      = ctx.decrypt_nonce + 1 := by
  have hfr := decrypt_encrypt_frame ctx (ctx.encrypt ev).2 ev []
    (by simp [CryptoContext.encrypt])
    (by simp [CryptoContext.encrypt])
    (by simp [CryptoContext.encrypt, hnonce])
    hwf h1 h2 hloc
  rw [List.append_nil] at hfr
  have hctx : ({ (ctx.encrypt ev).2 with
      decrypt_nonce := (ctx.encrypt ev).2.decrypt_nonce + 1 } : CryptoContext)
      = { ctx with encrypt_nonce := ctx.encrypt_nonce + 1,
                   decrypt_nonce := ctx.decrypt_nonce + 1 } := by
    simp [CryptoContext.encrypt]
  rw [hctx] at hfr
  refine ⟨hfr, by simp [CryptoContext.encrypt], ?_⟩
  rw [hfr]

/-- C1 witness: a `chacha20poly1305` context at nonce 5 with a 2-byte
`DATA` event on stream 7. -/
theorem claim_c1_roundtrip_witness :
    ((CryptoContext.new .chacha20poly1305 [107, 101, 121] 5).decrypt_nonce
      = (CryptoContext.new .chacha20poly1305 [107, 101, 121] 5).encrypt_nonce) ∧
    (Event.mk ⟨50331650, 7⟩ [104, 105] false).wellFormed = true ∧
    (CryptoContext.decrypt
        ((CryptoContext.new .chacha20poly1305 [107, 101, 121] 5).encrypt
          (Event.mk ⟨50331650, 7⟩ [104, 105] false)).2
        ((CryptoContext.new .chacha20poly1305 [107, 101, 121] 5).encrypt
          (Event.mk ⟨50331650, 7⟩ [104, 105] false)).1 =
      (.ok (Event.mk ⟨50331650, 7⟩ [104, 105] false),
        { CryptoContext.new .chacha20poly1305 [107, 101, 121] 5 with
            encrypt_nonce := (CryptoContext.new .chacha20poly1305 [107, 101, 121] 5).encrypt_nonce + 1,
            decrypt_nonce := (CryptoContext.new .chacha20poly1305 [107, 101, 121] 5).decrypt_nonce + 1 },
        [])) :=
  ⟨rfl, by decide,
    (claim_c1_roundtrip (CryptoContext.new .chacha20poly1305 [107, 101, 121] 5)
      (Event.mk ⟨50331650, 7⟩ [104, 105] false) rfl (by decide) (by decide) (by decide) rfl).1⟩

/-- C2.  Every `encrypt` advances the encrypt nonce by exactly one and
leaves the decrypt nonce alone; a `decrypt` leaves the encrypt nonce
alone, advances the decrypt nonce by exactly one when it returns an
event, and leaves the whole context unchanged on any error (NEED
requests and AEAD tag failures alike); and `n` successive encrypts move
the encrypt nonce from `s` to `s + n`, so the nonces used in each
direction within one context are strictly increasing and never
repeat. -/
theorem claim_c2_nonce_discipline (ctx : CryptoContext) (ev : Event) (buf : List Nat)
    (evs : List Event) :
    (ctx.encrypt ev).2.encrypt_nonce = ctx.encrypt_nonce + 1 ∧
    (ctx.encrypt ev).2.decrypt_nonce = ctx.decrypt_nonce ∧
    (ctx.decrypt buf).2.1 =
      (if (ctx.decrypt buf).1.isOk then
        { ctx with decrypt_nonce := ctx.decrypt_nonce + 1 }
      else ctx) ∧
    (encryptAll ctx evs).2.encrypt_nonce = ctx.encrypt_nonce + evs.length := by
  refine ⟨by simp [CryptoContext.encrypt], by simp [CryptoContext.encrypt], ?_,
    (encryptAll_nonce evs ctx).1⟩
  cases hme : ctx.method with
  | none =>
    rcases hd : none_decrypt_event ctx buf with ⟨r, b⟩
    cases r with
    | ok ev' => simp [CryptoContext.decrypt, hme, hd, Except.isOk, Except.toBool]
    | error e => simp [CryptoContext.decrypt, hme, hd, Except.isOk, Except.toBool]
  | chacha20poly1305 =>
    rcases hd : chacha20poly1305_decrypt_event ctx buf with ⟨r, b⟩
    cases r with
    | ok ev' => simp [CryptoContext.decrypt, hme, hd, Except.isOk, Except.toBool]
    | error e => simp [CryptoContext.decrypt, hme, hd, Except.isOk, Except.toBool]

theorem leBytes_split (j k n : Nat) :
    leBytes (j + k) n = leBytes j n ++ leBytes k (n / 256 ^ j) := by
  induction j generalizing n with
  | zero => simp [leBytes]
  | succ j ih =>
    have hadd : j + 1 + k = (j + k) + 1 := by omega
    rw [hadd, leBytes, leBytes, ih (n / 256), List.cons_append]
    congr 2
    rw [Nat.div_div_eq_div_mul]
    congr 1
    ring

/-- The AEAD nonce explicitly: the 8 little-endian nonce bytes followed
by four zero bytes, because the 64-bit counter occupies only the low
half of the 16-byte `u128` encoding. -/
theorem aeadNonce_explicit (n : Nat) :
    aeadNonce n = leBytes 8 (n % 18446744073709551616) ++ [0, 0, 0, 0] := by
  rw [aeadNonce]
  have hm : n % 18446744073709551616 < 18446744073709551616 := Nat.mod_lt _ (by norm_num)
  have hsplit : leBytes 16 (n % 18446744073709551616)
      = leBytes 8 (n % 18446744073709551616)
        ++ leBytes 8 (n % 18446744073709551616 / 256 ^ 8) := by
    have h := leBytes_split 8 8 (n % 18446744073709551616)
    norm_num at h ⊢
    exact h
  have hz : n % 18446744073709551616 / 256 ^ 8 = 0 := by
    apply Nat.div_eq_of_lt
    norm_num
    omega
  rw [hsplit, hz]
  have h12 : (12 : Nat) = (leBytes 8 (n % 18446744073709551616)).length + 4 := by
    rw [length_leBytes]
  rw [h12, List.take_append]
  rfl

theorem aeadNonce_length (n : Nat) : (aeadNonce n).length = 12 := by
  rw [aeadNonce_explicit, List.length_append, length_leBytes]
  rfl

theorem aeadNonce_drop8 (n : Nat) : (aeadNonce n).drop 8 = [0, 0, 0, 0] := by
  rw [aeadNonce_explicit]
  have h := List.drop_left (leBytes 8 (n % 18446744073709551616)) [0, 0, 0, 0]
  rwa [length_leBytes] at h

/-- C3.  For the `chacha20poly1305` method and every event whose flag
is `DATA` or `AUTH` with a non-empty body, the frame is exactly the
obfuscated 8-byte header, then ciphertext of the body's length, then
the 16-byte Poly1305 tag (total `8 + len + 16`); each 32-bit header
word is independently skip32-obfuscated under the 10-byte subkey made
of the first two key bytes followed by the 8-byte little-endian encrypt
nonce; and the AEAD nonce is the leading 12 bytes of the 16-byte
little-endian encoding of the 64-bit counter, whose upper 4 bytes are
therefore zero. -/
theorem claim_c3_chacha_frame_layout (ctx : CryptoContext) (ev : Event)
    (hflag : ev.header.flags = FLAG_DATA ∨ ev.header.flags = FLAG_AUTH)
    (hbody : ev.body ≠ []) :
    chacha20poly1305_encrypt_event ctx ev =
      leBytes 4 (skip32_encode (ctx.key.take 2 ++ leBytes 8 ctx.encrypt_nonce)
        ev.header.flag_len) ++
      leBytes 4 (skip32_encode (ctx.key.take 2 ++ leBytes 8 ctx.encrypt_nonce)
        ev.header.stream_id) ++
      (List.zipWith (fun a b => a ^^^ b) ev.body
        (keystream (ctx.key.take 32) (aeadNonce ctx.encrypt_nonce) ev.body.length) ++
       poly1305_tag (polyOneTimeKey (ctx.key.take 32) (aeadNonce ctx.encrypt_nonce))
        (macData (List.zipWith (fun a b => a ^^^ b) ev.body
          (keystream (ctx.key.take 32) (aeadNonce ctx.encrypt_nonce) ev.body.length)))) ∧
    (List.zipWith (fun a b => a ^^^ b) ev.body
      (keystream (ctx.key.take 32) (aeadNonce ctx.encrypt_nonce) ev.body.length)).length
      = ev.body.length ∧
    (poly1305_tag (polyOneTimeKey (ctx.key.take 32) (aeadNonce ctx.encrypt_nonce))
      (macData (List.zipWith (fun a b => a ^^^ b) ev.body
        (keystream (ctx.key.take 32) (aeadNonce ctx.encrypt_nonce) ev.body.length)))).length
      = 16 ∧
    (chacha20poly1305_encrypt_event ctx ev).length = 8 + ev.body.length + 16 ∧
    aeadNonce ctx.encrypt_nonce
      = (leBytes 16 (ctx.encrypt_nonce % 18446744073709551616)).take 12 ∧
    (aeadNonce ctx.encrypt_nonce).length = 12 ∧
    (aeadNonce ctx.encrypt_nonce).drop 8 = [0, 0, 0, 0] := by
  have hct : (List.zipWith (fun a b => a ^^^ b) ev.body
      (keystream (ctx.key.take 32) (aeadNonce ctx.encrypt_nonce) ev.body.length)).length
      = ev.body.length := by
    rw [List.length_zipWith, length_keystream, Nat.min_self]
  have henc : chacha20poly1305_encrypt_event ctx ev =
      leBytes 4 (skip32_encode (ctx.key.take 2 ++ leBytes 8 ctx.encrypt_nonce)
        ev.header.flag_len) ++
      leBytes 4 (skip32_encode (ctx.key.take 2 ++ leBytes 8 ctx.encrypt_nonce)
        ev.header.stream_id) ++
      chacha20poly1305_seal (ctx.key.take 32) (aeadNonce ctx.encrypt_nonce) ev.body := by
    rw [chacha20poly1305_encrypt_event, skip32_subkey, if_pos_body _ _ hbody]
  refine ⟨?_, hct, length_poly1305_tag _ _, ?_, rfl, aeadNonce_length _, aeadNonce_drop8 _⟩
  · rw [henc, chacha20poly1305_seal]
  · rw [henc]
    simp only [List.length_append, length_leBytes, length_seal]
    omega

/-- C3 witness: a chacha context at nonce 3 and a 1-byte `DATA` event. -/
theorem claim_c3_chacha_frame_layout_witness :
    ((Event.mk ⟨16777217, 2⟩ [9] false).header.flags = FLAG_DATA ∨
      (Event.mk ⟨16777217, 2⟩ [9] false).header.flags = FLAG_AUTH) = False ∧
    ((Event.mk ⟨50331649, 2⟩ [9] false).header.flags = FLAG_DATA ∨
      (Event.mk ⟨50331649, 2⟩ [9] false).header.flags = FLAG_AUTH) ∧
    (Event.mk ⟨50331649, 2⟩ [9] false).body ≠ [] ∧
    (chacha20poly1305_encrypt_event (CryptoContext.new .chacha20poly1305 [99] 3)
      (Event.mk ⟨50331649, 2⟩ [9] false)).length = 8 + 1 + 16 := by
  refine ⟨by decide, by decide, by decide, ?_⟩
  exact (claim_c3_chacha_frame_layout (CryptoContext.new .chacha20poly1305 [99] 3)
    (Event.mk ⟨50331649, 2⟩ [9] false) (by decide) (by decide)).2.2.2.1

/-- C4.  NEED requests: with fewer than 8 bytes both decrypters ask for
exactly `8 - have` more bytes; with a full header decoding to `DATA` or
`AUTH` and a non-zero length but a short body, the `none` decrypter
asks for exactly `len + 8 - have` and the `chacha20poly1305` decrypter
for exactly `len + 8 + 16 - have` more bytes.  All four results carry
the empty reason string, the NEED marker that `read_encrypt_event`
distinguishes from a fatal error. -/
theorem claim_c4_need_requests :
    (∀ (ctx : CryptoContext) (buf : List Nat), buf.length < 8 →
      none_decrypt_event ctx buf = (.error (8 - buf.length, ""), buf)) ∧
    (∀ (ctx : CryptoContext) (buf : List Nat), buf.length < 8 →
      chacha20poly1305_decrypt_event ctx buf = (.error (8 - buf.length, ""), buf)) ∧
    (∀ (ctx : CryptoContext) (buf : List Nat), 8 ≤ buf.length →
      ((Header.mk (read_u32_le buf) (read_u32_le (buf.drop 4))).flags = FLAG_DATA ∨
        (Header.mk (read_u32_le buf) (read_u32_le (buf.drop 4))).flags = FLAG_AUTH) →
      (Header.mk (read_u32_le buf) (read_u32_le (buf.drop 4))).len ≠ 0 →
      buf.length - 8 < (Header.mk (read_u32_le buf) (read_u32_le (buf.drop 4))).len →
      none_decrypt_event ctx buf =
        (.error ((Header.mk (read_u32_le buf) (read_u32_le (buf.drop 4))).len + 8
          - buf.length, ""), buf)) ∧
    (∀ (ctx : CryptoContext) (buf : List Nat), 8 ≤ buf.length →
      ((Header.mk (skip32_decode (skip32_subkey ctx.key ctx.decrypt_nonce) (read_u32_le buf))
          (skip32_decode (skip32_subkey ctx.key ctx.decrypt_nonce)
            (read_u32_le (buf.drop 4)))).flags = FLAG_DATA ∨
        (Header.mk (skip32_decode (skip32_subkey ctx.key ctx.decrypt_nonce) (read_u32_le buf))
          (skip32_decode (skip32_subkey ctx.key ctx.decrypt_nonce)
            (read_u32_le (buf.drop 4)))).flags = FLAG_AUTH) →
      (Header.mk (skip32_decode (skip32_subkey ctx.key ctx.decrypt_nonce) (read_u32_le buf))
        (skip32_decode (skip32_subkey ctx.key ctx.decrypt_nonce)
          (read_u32_le (buf.drop 4)))).len ≠ 0 →
      buf.length - 8 <
        (Header.mk (skip32_decode (skip32_subkey ctx.key ctx.decrypt_nonce) (read_u32_le buf))
          (skip32_decode (skip32_subkey ctx.key ctx.decrypt_nonce)
            (read_u32_le (buf.drop 4)))).len + 16 →
      chacha20poly1305_decrypt_event ctx buf =
        (.error ((Header.mk (skip32_decode (skip32_subkey ctx.key ctx.decrypt_nonce)
            (read_u32_le buf))
          (skip32_decode (skip32_subkey ctx.key ctx.decrypt_nonce)
            (read_u32_le (buf.drop 4)))).len + 8 + 16 - buf.length, ""), buf)) := by
  refine ⟨?_, ?_, ?_, ?_⟩
  · intro ctx buf h
    simp only [none_decrypt_event, EVENT_HEADER_LEN]
    rw [if_pos h]
  · intro ctx buf h
    simp only [chacha20poly1305_decrypt_event, EVENT_HEADER_LEN]
    rw [if_pos h]
  · intro ctx buf h hf hl hshort
    simp only [none_decrypt_event, EVENT_HEADER_LEN]
    rw [if_neg (by omega)]
    rw [if_neg ((decrypt_branch_iff _ _).not.mpr (not_not.mpr ⟨hf, hl⟩))]
    rw [if_pos hshort]
  · intro ctx buf h hf hl hshort
    simp only [chacha20poly1305_decrypt_event, EVENT_HEADER_LEN]
    rw [if_neg (by omega)]
    rw [if_neg ((decrypt_branch_iff _ _).not.mpr (not_not.mpr ⟨hf, hl⟩))]
    rw [if_pos hshort]

set_option maxRecDepth 400000 in
/-- C4 witness: a 3-byte buffer (both decrypters ask for 5 more), and
10-byte buffers holding a `DATA` header with length field 5 and a
2-byte partial body (`none` asks for 3 more, `chacha20poly1305` for 19
more). -/
theorem claim_c4_need_requests_witness :
    ([1, 2, 3] : List Nat).length < 8 ∧
    none_decrypt_event (CryptoContext.new .none [99] 4) [1, 2, 3]
      = (.error (5, ""), [1, 2, 3]) ∧
    chacha20poly1305_decrypt_event (CryptoContext.new .chacha20poly1305 [99] 4) [1, 2, 3]
      = (.error (5, ""), [1, 2, 3]) ∧
    none_decrypt_event (CryptoContext.new .none [99] 4)
        (leBytes 4 50331653 ++ leBytes 4 1 ++ [1, 2])
      = (.error (3, ""), leBytes 4 50331653 ++ leBytes 4 1 ++ [1, 2]) ∧
    chacha20poly1305_decrypt_event (CryptoContext.new .chacha20poly1305 [99] 4)
        (leBytes 4 (skip32_encode (skip32_subkey (CryptoContext.new .chacha20poly1305 [99] 4).key 4)
            50331653) ++
          leBytes 4 (skip32_encode (skip32_subkey (CryptoContext.new .chacha20poly1305 [99] 4).key 4)
            1) ++ [1, 2])
      = (.error (19, ""),
          leBytes 4 (skip32_encode (skip32_subkey (CryptoContext.new .chacha20poly1305 [99] 4).key 4)
            50331653) ++
          leBytes 4 (skip32_encode (skip32_subkey (CryptoContext.new .chacha20poly1305 [99] 4).key 4)
            1) ++ [1, 2]) := by
  refine ⟨by decide, ?_, ?_, ?_, ?_⟩
  · exact claim_c4_need_requests.1 _ _ (by decide)
  · exact claim_c4_need_requests.2.1 _ _ (by decide)
  · have h := claim_c4_need_requests.2.2.1 (CryptoContext.new .none [99] 4)
      (leBytes 4 50331653 ++ leBytes 4 1 ++ [1, 2])
      (by decide) (by decide) (by decide) (by decide)
    have hv : (Header.mk
        (read_u32_le (leBytes 4 50331653 ++ leBytes 4 1 ++ [1, 2]))
        (read_u32_le ((leBytes 4 50331653 ++ leBytes 4 1 ++ [1, 2]).drop 4))).len + 8
        - (leBytes 4 50331653 ++ leBytes 4 1 ++ [1, 2]).length = 3 := by decide
    rw [hv] at h
    exact h
  · have h := claim_c4_need_requests.2.2.2 (CryptoContext.new .chacha20poly1305 [99] 4)
      (leBytes 4 (skip32_encode (skip32_subkey (CryptoContext.new .chacha20poly1305 [99] 4).key 4)
          50331653) ++
        leBytes 4 (skip32_encode (skip32_subkey (CryptoContext.new .chacha20poly1305 [99] 4).key 4)
          1) ++ [1, 2])
      (by decide) (by decide) (by decide) (by decide)
    have hv : (Header.mk
        (skip32_decode (skip32_subkey (CryptoContext.new .chacha20poly1305 [99] 4).key
            (CryptoContext.new .chacha20poly1305 [99] 4).decrypt_nonce)
          (read_u32_le
            (leBytes 4 (skip32_encode
                (skip32_subkey (CryptoContext.new .chacha20poly1305 [99] 4).key 4) 50331653) ++
              leBytes 4 (skip32_encode
                (skip32_subkey (CryptoContext.new .chacha20poly1305 [99] 4).key 4) 1) ++ [1, 2])))
        (skip32_decode (skip32_subkey (CryptoContext.new .chacha20poly1305 [99] 4).key
            (CryptoContext.new .chacha20poly1305 [99] 4).decrypt_nonce)
          (read_u32_le
            ((leBytes 4 (skip32_encode
                (skip32_subkey (CryptoContext.new .chacha20poly1305 [99] 4).key 4) 50331653) ++
              leBytes 4 (skip32_encode
                (skip32_subkey (CryptoContext.new .chacha20poly1305 [99] 4).key 4) 1) ++
              [1, 2]).drop 4)))).len + 8 + 16
        - (leBytes 4 (skip32_encode
            (skip32_subkey (CryptoContext.new .chacha20poly1305 [99] 4).key 4) 50331653) ++
          leBytes 4 (skip32_encode
            (skip32_subkey (CryptoContext.new .chacha20poly1305 [99] 4).key 4) 1) ++
          [1, 2]).length = 19 := by decide
    rw [hv] at h
    exact h

/-- C5.  For any buffer of at least 8 bytes whose decoded header has a
flag other than `DATA`/`AUTH` or a zero length field, both decrypters
return that header with an empty body and consume exactly the 8 header
bytes, leaving the rest of the buffer untouched. -/
theorem claim_c5_headeronly_events :
    (∀ (ctx : CryptoContext) (buf : List Nat), 8 ≤ buf.length →
      (((Header.mk (read_u32_le buf) (read_u32_le (buf.drop 4))).flags ≠ FLAG_DATA ∧
        (Header.mk (read_u32_le buf) (read_u32_le (buf.drop 4))).flags ≠ FLAG_AUTH) ∨
        (Header.mk (read_u32_le buf) (read_u32_le (buf.drop 4))).len = 0) →
      none_decrypt_event ctx buf =
        (.ok ⟨Header.mk (read_u32_le buf) (read_u32_le (buf.drop 4)), [], false⟩,
          buf.drop 8)) ∧
    (∀ (ctx : CryptoContext) (buf : List Nat), 8 ≤ buf.length →
      (((Header.mk (skip32_decode (skip32_subkey ctx.key ctx.decrypt_nonce) (read_u32_le buf))
          (skip32_decode (skip32_subkey ctx.key ctx.decrypt_nonce)
            (read_u32_le (buf.drop 4)))).flags ≠ FLAG_DATA ∧
        (Header.mk (skip32_decode (skip32_subkey ctx.key ctx.decrypt_nonce) (read_u32_le buf))
          (skip32_decode (skip32_subkey ctx.key ctx.decrypt_nonce)
            (read_u32_le (buf.drop 4)))).flags ≠ FLAG_AUTH) ∨
        (Header.mk (skip32_decode (skip32_subkey ctx.key ctx.decrypt_nonce) (read_u32_le buf))
          (skip32_decode (skip32_subkey ctx.key ctx.decrypt_nonce)
            (read_u32_le (buf.drop 4)))).len = 0) →
      chacha20poly1305_decrypt_event ctx buf =
        (.ok ⟨Header.mk (skip32_decode (skip32_subkey ctx.key ctx.decrypt_nonce)
            (read_u32_le buf))
          (skip32_decode (skip32_subkey ctx.key ctx.decrypt_nonce)
            (read_u32_le (buf.drop 4))), [], false⟩,
          buf.drop 8)) := by
  constructor
  · intro ctx buf h hc
    simp only [none_decrypt_event, EVENT_HEADER_LEN]
    rw [if_neg (by omega)]
    rw [if_pos ?side]
    case side =>
      rcases hc with ⟨h1, h2⟩ | h0
      · exact Or.inl ⟨fun he => h1 he.symm, fun he => h2 he.symm⟩
      · exact Or.inr h0.symm
  · intro ctx buf h hc
    simp only [chacha20poly1305_decrypt_event, EVENT_HEADER_LEN]
    rw [if_neg (by omega)]
    rw [if_pos ?side]
    case side =>
      rcases hc with ⟨h1, h2⟩ | h0
      · exact Or.inl ⟨fun he => h1 he.symm, fun he => h2 he.symm⟩
      · exact Or.inr h0.symm

set_option maxRecDepth 400000 in
/-- C5 witness: a 10-byte buffer whose header decodes to `FIN` (no
body flag); both decrypters return the header, an empty body, and the
2 extra bytes untouched. -/
theorem claim_c5_headeronly_events_witness :
    none_decrypt_event (CryptoContext.new .none [99] 4)
        (leBytes 4 33554439 ++ leBytes 4 11 ++ [250, 251])
      = (.ok ⟨Header.mk 33554439 11, [], false⟩, [250, 251]) ∧
    chacha20poly1305_decrypt_event (CryptoContext.new .chacha20poly1305 [99] 4)
        (leBytes 4 (skip32_encode (skip32_subkey (CryptoContext.new .chacha20poly1305 [99] 4).key 4)
            33554439) ++
          leBytes 4 (skip32_encode (skip32_subkey (CryptoContext.new .chacha20poly1305 [99] 4).key 4)
            11) ++ [250, 251])
      = (.ok ⟨Header.mk 33554439 11, [], false⟩, [250, 251]) := by
  constructor
  · have h := claim_c5_headeronly_events.1 (CryptoContext.new .none [99] 4)
      (leBytes 4 33554439 ++ leBytes 4 11 ++ [250, 251]) (by decide) (by decide)
    rw [h]
    rfl
  · have h := claim_c5_headeronly_events.2 (CryptoContext.new .chacha20poly1305 [99] 4)
      (leBytes 4 (skip32_encode (skip32_subkey (CryptoContext.new .chacha20poly1305 [99] 4).key 4)
          33554439) ++
        leBytes 4 (skip32_encode (skip32_subkey (CryptoContext.new .chacha20poly1305 [99] 4).key 4)
          11) ++ [250, 251]) (by decide) (by decide)
    rw [h]
    rfl


/-- C9.  Whenever either decrypter returns a NEED request (an error
with the empty reason string), the buffer comes back completely
unchanged: both availability checks run before any byte is consumed,
so the caller can append the requested bytes and retry. -/
theorem claim_c9_need_leaves_buffer :
    (∀ (ctx : CryptoContext) (buf : List Nat) (n : Nat),
      (none_decrypt_event ctx buf).1 = .error (n, "") →
        (none_decrypt_event ctx buf).2 = buf) ∧
    (∀ (ctx : CryptoContext) (buf : List Nat) (n : Nat),
      (chacha20poly1305_decrypt_event ctx buf).1 = .error (n, "") →
        (chacha20poly1305_decrypt_event ctx buf).2 = buf) := by
  constructor
  · intro ctx buf n heq
    simp only [none_decrypt_event, EVENT_HEADER_LEN] at heq ⊢
    split_ifs at heq ⊢ <;>
      first
        | rfl
        | (simp at heq)
  · intro ctx buf n heq
    simp only [chacha20poly1305_decrypt_event, EVENT_HEADER_LEN] at heq ⊢
    split_ifs at heq ⊢ <;>
      first
        | rfl
        | (simp at heq; done)
        | (split at heq <;>
            first
              | (simp at heq; done)
              | (simp only at heq
                 injection heq with h
                 injection h with h1 h2
                 exact absurd h2 (by decide)))

/-- C9 witness: a 6-byte buffer; the `chacha20poly1305` decrypter
returns NEED(2) and hands the buffer back unchanged. -/
theorem claim_c9_need_leaves_buffer_witness :
    (chacha20poly1305_decrypt_event (CryptoContext.new .chacha20poly1305 [99] 4)
      [1, 2, 3, 4, 5, 6]).1 = .error (2, "") ∧
    (chacha20poly1305_decrypt_event (CryptoContext.new .chacha20poly1305 [99] 4)
      [1, 2, 3, 4, 5, 6]).2 = [1, 2, 3, 4, 5, 6] :=
  ⟨by decide, claim_c9_need_leaves_buffer.2
    (CryptoContext.new .chacha20poly1305 [99] 4) [1, 2, 3, 4, 5, 6] 2 (by decide)⟩

/-- C10.  An AEAD tag failure (the only decrypt error with a non-empty
reason) is not atomic on the buffer: the 8 header bytes have already
been consumed when the failure is reported, while the wrapper leaves
the context (hence the decrypt nonce) unchanged. -/
theorem claim_c10_tag_failure_partial_consume (ctx : CryptoContext) (buf : List Nat)
    (n : Nat) (s : String) (hs : s ≠ "")
    (hm : ctx.method = .chacha20poly1305)
    (heq : (chacha20poly1305_decrypt_event ctx buf).1 = .error (n, s)) :
    (chacha20poly1305_decrypt_event ctx buf).2 = buf.drop 8 ∧
    (CryptoContext.decrypt ctx buf).2.1 = ctx := by
  have hbody : (chacha20poly1305_decrypt_event ctx buf).2 = buf.drop 8 := by
    simp only [chacha20poly1305_decrypt_event, EVENT_HEADER_LEN] at heq ⊢
    split_ifs at heq ⊢ <;>
      first
        | (simp at heq; done)
        | (simp only at heq
           injection heq with h
           injection h with h1 h2
           exact absurd h2.symm hs)
        | (split at heq <;>
            first
              | (simp at heq; done)
              | rfl)
  refine ⟨hbody, ?_⟩
  rcases hr : chacha20poly1305_decrypt_event ctx buf with ⟨r1, b⟩
  rw [hr] at heq
  simp only at heq
  rw [heq] at hr
  simp only [CryptoContext.decrypt, hm, hr]

set_option maxRecDepth 1000000 in
/-- C10 witness: a buffer carrying a valid obfuscated `DATA` header
with length field 1 followed by 17 zero bytes that fail the tag check;
the decrypter reports the fatal error with the buffer advanced past the
header and the wrapper context unchanged. -/
theorem claim_c10_tag_failure_partial_consume_witness :
    ("Decrypt error" : String) ≠ "" ∧
    (chacha20poly1305_decrypt_event (CryptoContext.new .chacha20poly1305 [99] 4)
      (leBytes 4 (skip32_encode (skip32_subkey (CryptoContext.new .chacha20poly1305 [99] 4).key 4)
          50331649) ++
        leBytes 4 (skip32_encode (skip32_subkey (CryptoContext.new .chacha20poly1305 [99] 4).key 4)
          9) ++ List.replicate 17 0)).1 = .error (0, "Decrypt error") ∧
    (chacha20poly1305_decrypt_event (CryptoContext.new .chacha20poly1305 [99] 4)
      (leBytes 4 (skip32_encode (skip32_subkey (CryptoContext.new .chacha20poly1305 [99] 4).key 4)
          50331649) ++
        leBytes 4 (skip32_encode (skip32_subkey (CryptoContext.new .chacha20poly1305 [99] 4).key 4)
          9) ++ List.replicate 17 0)).2 =
      (leBytes 4 (skip32_encode (skip32_subkey (CryptoContext.new .chacha20poly1305 [99] 4).key 4)
          50331649) ++
        leBytes 4 (skip32_encode (skip32_subkey (CryptoContext.new .chacha20poly1305 [99] 4).key 4)
          9) ++ List.replicate 17 0).drop 8 ∧
    (CryptoContext.decrypt (CryptoContext.new .chacha20poly1305 [99] 4)
      (leBytes 4 (skip32_encode (skip32_subkey (CryptoContext.new .chacha20poly1305 [99] 4).key 4)
          50331649) ++
        leBytes 4 (skip32_encode (skip32_subkey (CryptoContext.new .chacha20poly1305 [99] 4).key 4)
          9) ++ List.replicate 17 0)).2.1 = CryptoContext.new .chacha20poly1305 [99] 4 := by
  refine ⟨by decide, by decide, ?_, ?_⟩
  · exact (claim_c10_tag_failure_partial_consume
      (CryptoContext.new .chacha20poly1305 [99] 4) _ 0 "Decrypt error"
      (by decide) rfl (by decide)).1
  · exact (claim_c10_tag_failure_partial_consume
      (CryptoContext.new .chacha20poly1305 [99] 4) _ 0 "Decrypt error"
      (by decide) rfl (by decide)).2

/-- C6.  Encrypting any finite sequence of data-model events with one
context and repeatedly decrypting the concatenation of the frames with
a matching context (same method and key, decrypt nonce starting at the
encrypter's encrypt nonce) yields exactly the original events in order
and leaves the buffer empty, with the decrypt nonce advanced once per
event. -/
theorem claim_c6_stream_roundtrip (evs : List Event) :
    ∀ ctxe ctxd : CryptoContext,
      ctxd.method = ctxe.method → ctxd.key = ctxe.key →
      ctxd.decrypt_nonce = ctxe.encrypt_nonce →
      (∀ ev ∈ evs, ev.wellFormed = true ∧ ev.header.flag_len < 4294967296 ∧
        ev.header.stream_id < 4294967296 ∧ ev.local_ = false) →
      decryptTimes ctxd (encryptAll ctxe evs).1 evs.length
        = (.ok evs, { ctxd with decrypt_nonce := ctxd.decrypt_nonce + evs.length }, []) := by
  induction evs with
  | nil =>
    intro ctxe ctxd hm hk hn hall
    simp [decryptTimes, encryptAll]
  | cons ev evs ih =>
    intro ctxe ctxd hm hk hn hall
    obtain ⟨hwf, h1, h2, hloc⟩ := hall ev (List.mem_cons_self ev evs)
    have hall' : ∀ e ∈ evs, e.wellFormed = true ∧ e.header.flag_len < 4294967296 ∧
        e.header.stream_id < 4294967296 ∧ e.local_ = false :=
      fun e he => hall e (List.mem_cons_of_mem _ he)
    have hfr := decrypt_encrypt_frame ctxe ctxd ev
      (encryptAll (ctxe.encrypt ev).2 evs).1 hm hk hn hwf h1 h2 hloc
    have hEA : (encryptAll ctxe (ev :: evs)).1
        = (ctxe.encrypt ev).1 ++ (encryptAll (ctxe.encrypt ev).2 evs).1 := rfl
    have hih := ih (ctxe.encrypt ev).2 { ctxd with decrypt_nonce := ctxd.decrypt_nonce + 1 }
      (by simp [CryptoContext.encrypt, hm])
      (by simp [CryptoContext.encrypt, hk])
      (by simp [CryptoContext.encrypt, hn])
      hall'
    have hlen : (ev :: evs).length = evs.length + 1 := rfl
    rw [hEA, hlen]
    simp only [decryptTimes, hfr, hih]
    have harith : ctxd.decrypt_nonce + 1 + evs.length = ctxd.decrypt_nonce + (evs.length + 1) := by
      omega
    simp [harith]

/-- C6 witness: two events (a `FIN` and a 2-byte `DATA`) through a
`chacha20poly1305` pair seeded at nonce 11. -/
theorem claim_c6_stream_roundtrip_witness :
    (∀ ev ∈ [Event.mk ⟨33554437, 3⟩ [] false, Event.mk ⟨50331650, 3⟩ [65, 66] false],
      ev.wellFormed = true ∧ ev.header.flag_len < 4294967296 ∧
        ev.header.stream_id < 4294967296 ∧ ev.local_ = false) ∧
    decryptTimes (CryptoContext.new .chacha20poly1305 [107] 11)
        (encryptAll (CryptoContext.new .chacha20poly1305 [107] 11)
          [Event.mk ⟨33554437, 3⟩ [] false, Event.mk ⟨50331650, 3⟩ [65, 66] false]).1 2
      = (.ok [Event.mk ⟨33554437, 3⟩ [] false, Event.mk ⟨50331650, 3⟩ [65, 66] false],
          { CryptoContext.new .chacha20poly1305 [107] 11 with
              decrypt_nonce := (CryptoContext.new .chacha20poly1305 [107] 11).decrypt_nonce + 2 },
          []) :=
  ⟨by decide,
    claim_c6_stream_roundtrip
      [Event.mk ⟨33554437, 3⟩ [] false, Event.mk ⟨50331650, 3⟩ [65, 66] false]
      (CryptoContext.new .chacha20poly1305 [107] 11)
      (CryptoContext.new .chacha20poly1305 [107] 11)
      rfl rfl rfl (by decide)⟩

/-- C7.  In the client handshake, a deserialized authentication
response with `success = false` makes `init_client` fail with a
connection-refused I/O error without building a session; with
`success = true` both crypto contexts are replaced by fresh ones with
the same method and key seeded at nonce `rand`, and the session
proceeds with that pair. -/
theorem claim_c7_handshake_decision (m : Method) (k : List Nat) (resp : AuthResponse) :
    (resp.success = false →
      init_client_auth m k resp = .error .connectionRefused) ∧
    (resp.success = true →
      init_client_auth m k resp
        = .ok (CryptoContext.new m k resp.rand, CryptoContext.new m k resp.rand) ∧
      (CryptoContext.new m k resp.rand).encrypt_nonce = resp.rand ∧
      (CryptoContext.new m k resp.rand).decrypt_nonce = resp.rand ∧
      (CryptoContext.new m k resp.rand).method = m ∧
      (CryptoContext.new m k resp.rand).key = padKey k) := by
  constructor
  · intro h
    simp [init_client_auth, h]
  · intro h
    refine ⟨by simp [init_client_auth, h], rfl, rfl, rfl, rfl⟩

/-- C7 witness: a rejected response and an accepted one with
`rand = 42`. -/
theorem claim_c7_handshake_decision_witness :
    (AuthResponse.mk false 0).success = false ∧
    init_client_auth .none [107] (AuthResponse.mk false 0) = .error .connectionRefused ∧
    (AuthResponse.mk true 42).success = true ∧
    init_client_auth .chacha20poly1305 [107] (AuthResponse.mk true 42)
      = .ok (CryptoContext.new .chacha20poly1305 [107] 42,
          CryptoContext.new .chacha20poly1305 [107] 42) ∧
    (CryptoContext.new .chacha20poly1305 [107] 42).encrypt_nonce = 42 :=
  ⟨rfl,
    (claim_c7_handshake_decision .none [107] (AuthResponse.mk false 0)).1 rfl,
    rfl,
    ((claim_c7_handshake_decision .chacha20poly1305 [107] (AuthResponse.mk true 42)).2 rfl).1,
    ((claim_c7_handshake_decision .chacha20poly1305 [107] (AuthResponse.mk true 42)).2 rfl).2.1⟩

/-- C8.  For either method, `CryptoContext::new` pads the key by
appending `'F'` (byte 70) until it is at least 32 bytes long (leaving a
key of 32 bytes or more unchanged) and seeds both nonces with the given
value; `reset` likewise sets both nonces, touching nothing else. -/
theorem claim_c8_new_reset (m : Method) (k : List Nat) (n : Nat) (ctx : CryptoContext)
    (r : Nat) :
    (CryptoContext.new m k n).key = k ++ List.replicate (32 - k.length) 70 ∧
    32 ≤ (CryptoContext.new m k n).key.length ∧
    (32 ≤ k.length → (CryptoContext.new m k n).key = k) ∧
    (CryptoContext.new m k n).encrypt_nonce = n ∧
    (CryptoContext.new m k n).decrypt_nonce = n ∧
    (CryptoContext.new m k n).method = m ∧
    (ctx.reset r).encrypt_nonce = r ∧
    (ctx.reset r).decrypt_nonce = r ∧
    (ctx.reset r).key = ctx.key ∧
    (ctx.reset r).method = ctx.method := by
  refine ⟨padKey_closed k, padKey_length k, ?_, rfl, rfl, rfl, rfl, rfl, rfl, rfl⟩
  intro h
  show padKey k = k
  rw [padKey_closed]
  have h0 : 32 - k.length = 0 := by omega
  rw [h0, List.replicate_zero, List.append_nil]

/-- C8 witness: a 3-byte key is padded to 32 bytes with `'F'`; a
33-byte key stays unchanged; both nonces of a fresh context and of a
reset context equal the seed. -/
theorem claim_c8_new_reset_witness :
    (CryptoContext.new .chacha20poly1305 [107, 101, 121] 9).key
      = [107, 101, 121] ++ List.replicate 29 70 ∧
    32 ≤ (List.replicate 33 65 : List Nat).length ∧
    (CryptoContext.new .none (List.replicate 33 65) 9).key = List.replicate 33 65 ∧
    (CryptoContext.new .chacha20poly1305 [107, 101, 121] 9).encrypt_nonce = 9 ∧
    (CryptoContext.new .chacha20poly1305 [107, 101, 121] 9).decrypt_nonce = 9 ∧
    ((CryptoContext.new .chacha20poly1305 [107, 101, 121] 9).reset 77).encrypt_nonce = 77 ∧
    ((CryptoContext.new .chacha20poly1305 [107, 101, 121] 9).reset 77).decrypt_nonce = 77 := by
  refine ⟨?_, by decide, ?_, ?_, ?_, ?_, ?_⟩
  · exact (claim_c8_new_reset .chacha20poly1305 [107, 101, 121] 9
      (CryptoContext.new .chacha20poly1305 [107, 101, 121] 9) 77).1
  · exact (claim_c8_new_reset .none (List.replicate 33 65) 9
      (CryptoContext.new .none (List.replicate 33 65) 9) 77).2.2.1 (by decide)
  · exact (claim_c8_new_reset .chacha20poly1305 [107, 101, 121] 9
      (CryptoContext.new .chacha20poly1305 [107, 101, 121] 9) 77).2.2.2.1
  · exact (claim_c8_new_reset .chacha20poly1305 [107, 101, 121] 9
      (CryptoContext.new .chacha20poly1305 [107, 101, 121] 9) 77).2.2.2.2.1
  · exact (claim_c8_new_reset .chacha20poly1305 [107, 101, 121] 9
      (CryptoContext.new .chacha20poly1305 [107, 101, 121] 9) 77).2.2.2.2.2.2.1
  · exact (claim_c8_new_reset .chacha20poly1305 [107, 101, 121] 9
      (CryptoContext.new .chacha20poly1305 [107, 101, 121] 9) 77).2.2.2.2.2.2.2.1
